import Mathlib

set_option maxRecDepth 4000

/-!
Shallow embedding of the Asset Tag Tracker (src/app.py) and proofs about it.

Python strings are modelled as lists of characters (`List Char`); Python's
`str.split(sep)` for a one-character separator, `str.strip()` and `int(...)`
are modelled by `pySplit`, `pyStrip` and `parsePyInt` below.  An asset record
(a Python dict with keys tag, country_code, manufacturer_code, name,
date_created) is the structure `Asset`; the current timestamp produced by
`datetime.now().isoformat()` is passed in as an explicit `now` argument.
Storage effects (GitHub and local-file saves) are modelled by passing in the
outcome each backend would produce and recording which backends are invoked.
-/

/-- Python `s.split(sep)` for a one-character separator: splitting the empty
string gives one empty field, every occurrence of the separator opens a new
field, so `n` separators give `n + 1` fields (fields may be empty). -/
def pySplit (sep : Char) : List Char → List (List Char)
  | [] => [[]]
  | c :: rest =>
    let r := pySplit sep rest
    if c = sep then [] :: r
    else (c :: r.headD []) :: r.tail

/-- Python `s.strip()`: remove leading and trailing whitespace. -/
def pyStrip (l : List Char) : List Char :=
  ((l.dropWhile Char.isWhitespace).reverse.dropWhile Char.isWhitespace).reverse

/-- Numeric value of a decimal digit character. -/
def digitVal (c : Char) : Nat := c.toNat - 48

/-- Value of a list of decimal digit characters, most significant first. -/
def strVal (l : List Char) : Nat := l.foldl (fun a c => 10 * a + digitVal c) 0

/-- Python `int(s)` on the strings that occur as tag fields: surrounding
whitespace is ignored, an optional leading plus sign is accepted, and the
rest must be a non-empty run of decimal digits (a minus sign cannot occur
in a field produced by splitting on the dash; Python's underscore digit
grouping is not modelled).  Returns `none` where `int` raises `ValueError`. -/
def parsePyInt (l : List Char) : Option Nat :=
  let t := pyStrip l
  let d := if t.headD ' ' = '+' then t.tail else t
  if d ≠ [] ∧ d.all Char.isDigit = true then some (strVal d) else none

/-- Decimal digits of `n`, most significant first, with explicit fuel so that
the definition is structural (the fuel `n + 1` always suffices). -/
def natToDecAux : Nat → Nat → List Char
  | 0, _ => []
  | fuel + 1, n =>
    if n < 10 then [Nat.digitChar n]
    else natToDecAux fuel (n / 10) ++ [Nat.digitChar (n % 10)]

/-- Decimal representation of a natural number, as Python `str(n)` / `repr`. -/
def natToDec (n : Nat) : List Char := natToDecAux (n + 1) n

/-- Python format spec `04d`: the decimal digits of `n`, left-padded with
zeros to at least four characters (longer numbers grow naturally). -/
def pad4 (n : Nat) : List Char :=
  List.replicate (4 - (natToDec n).length) '0' ++ natToDec n

/-- The tag format string of `generate_asset_tag` (src/app.py line 208):
country code, dash, manufacturer code, dash, sequence number padded to 4. -/
def formatTag (cc mc : List Char) (n : Nat) : List Char :=
  cc ++ '-' :: (mc ++ '-' :: pad4 n)

/-- An asset record as stored in assets.json (src/app.py lines 247-253 and
377-383): a flat dict with the five string fields used by the program. -/
structure Asset where
  tag : List Char
  country_code : List Char
  manufacturer_code : List Char
  name : List Char
  date_created : List Char
deriving DecidableEq, Repr

/-- The filter of `generate_asset_tag` (src/app.py lines 188-190): an asset
matches when both its country code and its manufacturer code equal the
requested ones exactly. -/
def matchesPair (cc mc : List Char) (a : Asset) : Bool :=
  a.country_code == cc && a.manufacturer_code == mc

/-- Python `tag.split('-')[-1]`: the field after the last dash. -/
def lastSeg (l : List Char) : List Char := (pySplit '-' l).getLastD []

/-- The per-asset number extraction of `generate_asset_tag` (src/app.py
lines 198-204): when the tag contains a dash, try to parse the field after
the last dash as an integer; a parse failure contributes nothing. -/
def extractTagNumber (a : Asset) : Option Nat :=
  if '-' ∈ a.tag then parsePyInt (lastSeg a.tag) else none

/-- `AssetTracker.generate_asset_tag` (src/app.py lines 185-208): filter the
snapshot to assets matching both codes; with no match the next number is 1;
otherwise collect the parseable trailing numbers of the matching tags and
use their maximum plus one, or 1 when none parses; format the result.
`numbers.foldl Nat.max 0` is Python's `max(numbers)` (all entries are
naturals, so the initial 0 does not change the maximum). -/
def generate_asset_tag (cc mc : List Char) (assets : List Asset) : List Char :=
  let existing_assets := assets.filter (matchesPair cc mc)
  let next_number :=
    if existing_assets = [] then 1
    else
      let numbers := existing_assets.filterMap extractTagNumber
      if numbers = [] then 1 else numbers.foldl Nat.max 0 + 1
  formatTag cc mc next_number

/-- The sequence-number rule as the specification words it: filter to the
assets matching both codes, parse each matching tag's trailing segment as an
integer ignoring failures, and answer the maximum plus one, or 1 when there
are no matches or no parseable numbers. -/
def specNextSeq (cc mc : List Char) (assets : List Asset) : Nat :=
  let numbers := (assets.filter (matchesPair cc mc)).filterMap extractTagNumber
  if numbers = [] then 1 else numbers.foldl Nat.max 0 + 1

/-- The constant prefix of the synthesized import name (src/app.py
line 251). -/
def importedAssetName : List Char :=
  ['I', 'm', 'p', 'o', 'r', 't', 'e', 'd', ' ', 'A', 's', 's', 'e', 't', ' ']

/-- The record built by `import_existing_tags` for an accepted line
(src/app.py lines 239-253): the tag is the whole line, the codes are the
stripped first and second fields, the name is synthesized from the stripped
third field. -/
def importRecord (now line : List Char) : Asset :=
  let parts := pySplit '-' line
  { tag := line
    country_code := pyStrip (parts.getD 0 [])
    manufacturer_code := pyStrip (parts.getD 1 [])
    name := importedAssetName ++ pyStrip (parts.getD 2 [])
    date_created := now }

/-- One iteration of the import loop of `import_existing_tags` (src/app.py
lines 236-255) on the state (asset list, imported count): a line is
considered only when it contains a dash and splits into exactly 3 fields;
it is then appended (and counted) unless some asset already carries the
line as its tag. -/
def importStep (now : List Char) (st : List Asset × Nat) (line : List Char) :
    List Asset × Nat :=
  if '-' ∈ line ∧ (pySplit '-' line).length = 3 then
    if ¬ ∃ a ∈ st.1, a.tag = line then
      (st.1 ++ [importRecord now line], st.2 + 1)
    else st
  else st

/-- The line preprocessing of `import_existing_tags` (src/app.py line 233):
split the pasted text on newlines, strip each line, keep the non-blank
ones. -/
def tagLines (pasted : List Char) : List (List Char) :=
  ((pySplit '\n' pasted).map pyStrip).filter (fun l => !l.isEmpty)

/-- The in-memory part of `import_existing_tags` (src/app.py lines 229-255):
fold the import loop over the preprocessed lines, starting from the caller's
asset list and a zero count; returns the (mutated) list and the count. -/
def importCore (assets : List Asset) (pasted now : List Char) :
    List Asset × Nat :=
  (tagLines pasted).foldl (importStep now) (assets, 0)

/-- `import_existing_tags` including its persistence step (src/app.py
lines 257-261): the records are already in the caller's list when the save
runs; the function returns the save's outcome when at least one line
was imported and `false` otherwise.  `saveOk` is the outcome
`tracker.save_assets` would produce. -/
def import_existing_tags (saveOk : Bool) (assets : List Asset)
    (pasted now : List Char) : List Asset × Bool :=
  let r := importCore assets pasted now
  if r.2 > 0 then (r.1, saveOk) else (r.1, false)

/-- A reference-list entry (country or manufacturer), a code/name pair. -/
structure RefEntry where
  code : List Char
  name : List Char
deriving DecidableEq, Repr

/-- The duplicate-checked add of `show_manage_lists` (src/app.py
lines 433-441 for countries, 470-478 for manufacturers): when some stored
entry already has the code, report the duplicate error and leave the list
alone (`none`); otherwise append the new entry (`some` of the new list). -/
def add_ref_entry (entries : List RefEntry) (code nm : List Char) :
    Option (List RefEntry) :=
  if ∃ e ∈ entries, e.code = code then none
  else some (entries ++ [{ code := code, name := nm }])

/-- Outcome of one composed save: which backends were invoked and the
returned success flag. -/
structure SaveOutcome where
  github_attempted : Bool
  file_attempted : Bool
  result : Bool
deriving DecidableEq, Repr

/-- `AssetTracker.save_assets` (src/app.py lines 161-167): start from
success, replace it by the GitHub save's outcome when GitHub is in use, then
run the local file save unconditionally and conjoin its outcome.
`github_ok` and `file_ok` are the outcomes the two backends would produce
when invoked. -/
def save_assets (use_github github_ok file_ok : Bool) : SaveOutcome :=
  let success := true
  let success := if use_github then github_ok else success
  { github_attempted := use_github
    file_attempted := true
    result := file_ok && success }

/-- Which remote path `save_data_to_github` takes. -/
inductive GithubSave where
  | noRepo
  | create
  | update (sha : List Char)
deriving DecidableEq, Repr

/-- The path selection of `AssetTracker.save_data_to_github` (src/app.py
lines 70-96): without a repository the save fails outright; otherwise the
document is read first, and an existing document (`some sha`, the revision
token of that read) is updated with that token while a missing one
(`get_contents` raising) is created. -/
def save_data_to_github (hasRepo : Bool) (existing : Option (List Char)) :
    GithubSave :=
  if hasRepo then
    match existing with
    | some sha => GithubSave.update sha
    | none => GithubSave.create
  else GithubSave.noRepo

/-- Modelled from the spec: the Identifier Codec's `parse` (spec section
4.1), which the source only implements inline (the field split in
`import_existing_tags`, the trailing-number parse in `generate_asset_tag`):
a tag is valid iff splitting on the dash yields exactly 3 non-empty fields,
and the third field must parse as an integer for sequence extraction. -/
def parseTag (t : List Char) : Option (List Char × List Char × Nat) :=
  match pySplit '-' t with
  | [a, b, c] =>
    if a ≠ [] ∧ b ≠ [] ∧ c ≠ [] then
      match parsePyInt c with
      | some n => some (a, b, n)
      | none => none
    else none
  | _ => none

/-- The batch-generation loop of `show_tag_generator` (src/app.py
lines 370-383): each iteration generates a tag from the current snapshot and
appends the corresponding record (codes as requested, name suffixed with the
1-based index) to the snapshot used by the next iteration. -/
def batchGenerate (cc mc nm now : List Char) (assets : List Asset) :
    Nat → List Asset
  | 0 => assets
  | k + 1 =>
    let cur := batchGenerate cc mc nm now assets k
    let tag := generate_asset_tag cc mc cur
    cur ++ [{ tag := tag, country_code := cc, manufacturer_code := mc,
              name := nm ++ [' ', '#'] ++ natToDec (k + 1),
              date_created := now }]

/-- The uniqueness invariant on the asset collection: all stored tags are
pairwise distinct. -/
def tagsDistinct (l : List Asset) : Prop := (l.map (fun a => a.tag)).Nodup

instance (l : List Asset) : Decidable (tagsDistinct l) := by
  unfold tagsDistinct; infer_instance

/-- A character is a decimal digit character when it is `Nat.digitChar` of a
digit value; every character of `natToDec n` and `pad4 n` is one. -/
def isDigitCh (c : Char) : Prop := ∃ d, d < 10 ∧ c = Nat.digitChar d

/-- The record appended by the batch-generation loop of `show_tag_generator`
for the `j`-th generated tag (1-based), once that tag is known to be
`formatTag cc mc j`. -/
def genRecord (cc mc nm now : List Char) (j : Nat) : Asset :=
  { tag := formatTag cc mc j, country_code := cc, manufacturer_code := mc,
    name := nm ++ [' ', '#'] ++ natToDec j, date_created := now }

/-- The country code EGY used in the concrete instances. -/
def ccEGY : List Char := ['E', 'G', 'Y']

/-- The manufacturer code ZE used in the concrete instances. -/
def mcZE : List Char := ['Z', 'E']

/-- The tag EGY-ZE-0001 used in the concrete instances. -/
def egyTag : List Char :=
  ['E', 'G', 'Y', '-', 'Z', 'E', '-', '0', '0', '0', '1']

/-- A stored asset carrying the tag EGY-ZE-0001 with consistent codes. -/
def sampleAsset : Asset :=
  { tag := egyTag, country_code := ccEGY, manufacturer_code := mcZE,
    name := [], date_created := [] }

/-- An asset whose tag reads EGY-ZE-0001 but whose code fields do not match
the tag (such records are representable in assets.json: nothing ties the
stored code fields to the tag text). -/
def mismatchedAsset : Asset :=
  { tag := egyTag, country_code := ['X'], manufacturer_code := ['Y'],
    name := [], date_created := [] }

/-- The line used against claim C5: it splits into exactly 3 fields, the
middle one empty. -/
def badLine : List Char := ['A', '-', '-', 'B']

/-- The display name Egypt used in the concrete instances. -/
def egyptName : List Char := ['E', 'g', 'y', 'p', 't']

/-- The reference-list entry (EGY, Egypt) used in the concrete instances. -/
def egyEntry : RefEntry := { code := ccEGY, name := egyptName }

/-! Helper lemmas about the string primitives. -/

lemma isDigitCh_props {c : Char} (h : isDigitCh c) :
    c.isDigit = true ∧ c.isWhitespace = false ∧ c ≠ '-' ∧ c ≠ '+' := by
  obtain ⟨d, hd, rfl⟩ := h
  interval_cases d <;> decide

lemma digitVal_digitChar {d : Nat} (hd : d < 10) :
    digitVal (Nat.digitChar d) = d := by
  interval_cases d <;> decide

lemma strVal_append_one (l : List Char) (c : Char) :
    strVal (l ++ [c]) = 10 * strVal l + digitVal c := by
  simp [strVal, List.foldl_append]

lemma strVal_cons_zero (l : List Char) : strVal ('0' :: l) = strVal l := by
  have h : (fun a c => 10 * a + digitVal c) 0 '0' = 0 := by decide
  simp only [strVal, List.foldl_cons, h]

lemma strVal_replicate_zero (k : Nat) (l : List Char) :
    strVal (List.replicate k '0' ++ l) = strVal l := by
  induction k with
  | zero => simp
  | succ k ih => simpa [List.replicate_succ, strVal_cons_zero] using ih

lemma natToDecAux_spec :
    ∀ fuel n, n < fuel →
      natToDecAux fuel n ≠ [] ∧ (∀ c ∈ natToDecAux fuel n, isDigitCh c) ∧
        strVal (natToDecAux fuel n) = n := by
  intro fuel
  induction fuel with
  | zero => intro n h; omega
  | succ fuel ih =>
    intro n h
    by_cases h10 : n < 10
    · refine ⟨by simp [natToDecAux, h10], ?_, ?_⟩
      · intro c hc
        simp [natToDecAux, h10] at hc
        exact ⟨n, h10, hc⟩
      · simp [natToDecAux, h10, strVal, digitVal_digitChar h10]
    · have hdiv : n / 10 < fuel := by
        have := Nat.div_lt_self (by omega : 0 < n) (by omega : 1 < 10)
        omega
      obtain ⟨hne, hdig, hval⟩ := ih (n / 10) hdiv
      refine ⟨by simp [natToDecAux, h10], ?_, ?_⟩
      · intro c hc
        simp [natToDecAux, h10] at hc
        rcases hc with hc | hc
        · exact hdig c hc
        · exact ⟨n % 10, Nat.mod_lt n (by omega), hc⟩
      · have : strVal (natToDecAux fuel (n / 10) ++ [Nat.digitChar (n % 10)])
            = 10 * (n / 10) + n % 10 := by
          rw [strVal_append_one, hval, digitVal_digitChar (Nat.mod_lt n (by omega))]
        simp only [natToDecAux, if_neg h10]
        omega

lemma natToDec_ne_nil (n : Nat) : natToDec n ≠ [] :=
  (natToDecAux_spec (n + 1) n (by omega)).1

lemma natToDec_digits (n : Nat) : ∀ c ∈ natToDec n, isDigitCh c :=
  (natToDecAux_spec (n + 1) n (by omega)).2.1

lemma strVal_natToDec (n : Nat) : strVal (natToDec n) = n :=
  (natToDecAux_spec (n + 1) n (by omega)).2.2

lemma pad4_digits (n : Nat) : ∀ c ∈ pad4 n, isDigitCh c := by
  intro c hc
  simp [pad4] at hc
  rcases hc with ⟨_, hc⟩ | hc
  · exact hc ▸ ⟨0, by omega, rfl⟩
  · exact natToDec_digits n c hc

lemma pad4_ne_nil (n : Nat) : pad4 n ≠ [] := by
  simp [pad4, natToDec_ne_nil n]

lemma strVal_pad4 (n : Nat) : strVal (pad4 n) = n := by
  rw [pad4, strVal_replicate_zero, strVal_natToDec]

lemma dash_not_mem_pad4 (n : Nat) : '-' ∉ pad4 n := by
  intro h
  exact ((isDigitCh_props (pad4_digits n _ h)).2.2.1) rfl

lemma pyStrip_of_no_ws {l : List Char} (h : ∀ c ∈ l, c.isWhitespace = false) :
    pyStrip l = l := by
  have drop1 : l.dropWhile Char.isWhitespace = l := by
    cases l with
    | nil => rfl
    | cons c tl =>
      rw [List.dropWhile_cons, h c (by simp)]
      simp
  rw [pyStrip, drop1]
  have drop2 : l.reverse.dropWhile Char.isWhitespace = l.reverse := by
    cases hr : l.reverse with
    | nil => rfl
    | cons c tl =>
      have hc : c ∈ l := by
        have : c ∈ l.reverse := by rw [hr]; simp
        simpa using this
      rw [List.dropWhile_cons, h c hc]
      simp
  rw [drop2, List.reverse_reverse]

lemma parsePyInt_pad4 (n : Nat) : parsePyInt (pad4 n) = some n := by
  have hnw : ∀ c ∈ pad4 n, c.isWhitespace = false := fun c hc =>
    (isDigitCh_props (pad4_digits n c hc)).2.1
  have hstrip : pyStrip (pad4 n) = pad4 n := pyStrip_of_no_ws hnw
  have hhead : (pad4 n).headD ' ' ≠ '+' := by
    cases hp : pad4 n with
    | nil => exact absurd hp (pad4_ne_nil n)
    | cons c tl =>
      have hc : c ∈ pad4 n := by rw [hp]; simp
      simpa using (isDigitCh_props (pad4_digits n c hc)).2.2.2
  have hall : (pad4 n).all Char.isDigit = true := by
    rw [List.all_eq_true]
    exact fun c hc => (isDigitCh_props (pad4_digits n c hc)).1
  simp only [parsePyInt, hstrip, if_neg hhead, hall]
  simp [pad4_ne_nil n, strVal_pad4 n]

lemma pySplit_ne_nil (sep : Char) (l : List Char) : pySplit sep l ≠ [] := by
  cases l with
  | nil => simp [pySplit]
  | cons c rest =>
    by_cases h : c = sep <;> simp [pySplit, h]

lemma pySplit_cons_eq (sep : Char) (rest : List Char) :
    pySplit sep (sep :: rest) = [] :: pySplit sep rest := by
  simp [pySplit]

lemma pySplit_cons_ne {sep c : Char} (rest : List Char) (hc : c ≠ sep) :
    pySplit sep (c :: rest) =
      (c :: (pySplit sep rest).headD []) :: (pySplit sep rest).tail := by
  simp [pySplit, hc]

lemma getLastD_cons_ne {α : Type} (a d : α) {l : List α} (h : l ≠ []) :
    (a :: l).getLastD d = l.getLastD d := by
  cases l with
  | nil => cases h rfl
  | cons x xs => simp [List.getLastD_cons]

lemma pySplit_of_not_mem {sep : Char} {l : List Char} (h : sep ∉ l) :
    pySplit sep l = [l] := by
  induction l with
  | nil => rfl
  | cons c rest ih =>
    have hc : c ≠ sep := fun hcs => h (by simp [hcs])
    have hrest : sep ∉ rest := fun hm => h (by simp [hm])
    simp [pySplit, hc, ih hrest]

lemma pySplit_append_sep {sep : Char} {xs : List Char} (ys : List Char)
    (h : sep ∉ xs) : pySplit sep (xs ++ sep :: ys) = xs :: pySplit sep ys := by
  induction xs with
  | nil => simp [pySplit]
  | cons c rest ih =>
    have hc : c ≠ sep := fun hcs => h (by simp [hcs])
    have hrest : sep ∉ rest := fun hm => h (by simp [hm])
    rw [List.cons_append, pySplit_cons_ne _ hc, ih hrest]
    simp

lemma pySplit_length_ge_two {sep : Char} {l : List Char} (h : sep ∈ l) :
    2 ≤ (pySplit sep l).length := by
  induction l with
  | nil => simp at h
  | cons c rest ih =>
    by_cases hc : c = sep
    · have := pySplit_ne_nil sep rest
      have : 1 ≤ (pySplit sep rest).length := by
        cases hr : pySplit sep rest with
        | nil => exact absurd hr this
        | cons a b => simp
      simp only [pySplit, if_pos hc, List.length_cons]
      omega
    · have hm : sep ∈ rest := by
        rcases List.mem_cons.mp h with h1 | h1
        · exact absurd h1.symm hc
        · exact h1
      have h2 := ih hm
      have hne := pySplit_ne_nil sep rest
      cases hr : pySplit sep rest with
      | nil => exact absurd hr hne
      | cons a b =>
        rw [hr] at h2
        simp only [pySplit, if_neg hc, hr, List.length_cons] at *
        simp only [List.tail_cons, List.length_cons]
        omega

lemma lastSeg_append_sep (xs ys : List Char) :
    lastSeg (xs ++ '-' :: ys) = lastSeg ys := by
  induction xs with
  | nil =>
    show (pySplit '-' ('-' :: ys)).getLastD [] = lastSeg ys
    rw [pySplit_cons_eq, getLastD_cons_ne _ _ (pySplit_ne_nil '-' ys)]
    rfl
  | cons c rest ih =>
    by_cases hc : c = '-'
    · subst hc
      show (pySplit '-' ('-' :: (rest ++ '-' :: ys))).getLastD [] = lastSeg ys
      rw [pySplit_cons_eq, getLastD_cons_ne _ _ (pySplit_ne_nil _ _)]
      exact ih
    · show (pySplit '-' (c :: (rest ++ '-' :: ys))).getLastD [] = lastSeg ys
      rw [pySplit_cons_ne _ hc]
      have hlen := pySplit_length_ge_two (show '-' ∈ rest ++ '-' :: ys by simp)
      have htail : (pySplit '-' (rest ++ '-' :: ys)).tail ≠ [] := by
        cases hr : pySplit '-' (rest ++ '-' :: ys) with
        | nil => simp [hr] at hlen
        | cons a b =>
          rw [hr] at hlen
          cases b with
          | nil => simp at hlen
          | cons a2 b2 => simp
      rw [getLastD_cons_ne _ _ htail]
      cases hr : pySplit '-' (rest ++ '-' :: ys) with
      | nil => exact absurd hr (pySplit_ne_nil _ _)
      | cons a b =>
        have hb : b ≠ [] := by rw [hr] at htail; simpa using htail
        have hi := ih
        rw [lastSeg, hr, getLastD_cons_ne _ _ hb] at hi
        simpa using hi

lemma lastSeg_of_not_mem {l : List Char} (h : '-' ∉ l) : lastSeg l = l := by
  simp [lastSeg, pySplit_of_not_mem h]

lemma lastSeg_formatTag (cc mc : List Char) (n : Nat) :
    lastSeg (formatTag cc mc n) = pad4 n := by
  rw [formatTag, lastSeg_append_sep, lastSeg_append_sep,
    lastSeg_of_not_mem (dash_not_mem_pad4 n)]

lemma dash_mem_formatTag (cc mc : List Char) (n : Nat) :
    '-' ∈ formatTag cc mc n := by
  simp [formatTag]

lemma extractTagNumber_formatTag (cc mc nm dc : List Char) (n : Nat) :
    extractTagNumber
      { tag := formatTag cc mc n, country_code := cc, manufacturer_code := mc,
        name := nm, date_created := dc } = some n := by
  simp only [extractTagNumber]
  rw [if_pos (dash_mem_formatTag cc mc n), lastSeg_formatTag, parsePyInt_pad4]

lemma extractTagNumber_of_tag_eq {a : Asset} {cc mc : List Char} {n : Nat}
    (h : a.tag = formatTag cc mc n) : extractTagNumber a = some n := by
  simp only [extractTagNumber, h]
  rw [if_pos (dash_mem_formatTag cc mc n), lastSeg_formatTag, parsePyInt_pad4]

lemma init_le_foldl_max (l : List Nat) : ∀ a, a ≤ l.foldl Nat.max a := by
  induction l with
  | nil => intro a; simp
  | cons c tl ih =>
    intro a
    rw [List.foldl_cons]
    exact le_trans (Nat.le_max_left a c) (ih (Nat.max a c))

lemma mem_le_foldl_max (l : List Nat) : ∀ a x, x ∈ l → x ≤ l.foldl Nat.max a := by
  induction l with
  | nil => intro a x h; simp at h
  | cons c tl ih =>
    intro a x h
    rw [List.foldl_cons]
    rcases List.mem_cons.mp h with h1 | h1
    · subst h1
      exact le_trans (Nat.le_max_right a x) (init_le_foldl_max tl (Nat.max a x))
    · exact ih (Nat.max a c) x h1

lemma foldl_max_range_map (k : Nat) :
    ((List.range k).map (fun i => i + 1)).foldl Nat.max 0 = k := by
  induction k with
  | zero => rfl
  | succ k ih =>
    simp only [List.range_succ, List.map_append, List.foldl_append, ih,
      List.map_cons, List.map_nil, List.foldl_cons, List.foldl_nil]
    exact Nat.max_eq_right (by omega)

example : pySplit '-' ['a', '-', '-', 'b'] = [['a'], [], ['b']] := by decide
example : pySplit '-' [] = [[]] := by decide
example : pyStrip [' ', 'a', 'b', ' '] = ['a', 'b'] := by decide
example : parsePyInt ['0', '0', '1', '2'] = some 12 := by decide
example : parsePyInt ['1', 'x'] = none := by decide
example : natToDec 407 = ['4', '0', '7'] := by decide
example : pad4 12 = ['0', '0', '1', '2'] := by decide
example : pad4 12345 = ['1', '2', '3', '4', '5'] := by decide
example :
    generate_asset_tag ['E', 'G'] ['Z', 'E'] [] =
      ['E', 'G', '-', 'Z', 'E', '-', '0', '0', '0', '1'] := by decide

/-! Lemmas about the program's operations. -/

lemma generate_eq_format (cc mc : List Char) (assets : List Asset) :
    generate_asset_tag cc mc assets = formatTag cc mc (specNextSeq cc mc assets) := by
  unfold generate_asset_tag specNextSeq
  by_cases h : assets.filter (matchesPair cc mc) = []
  · simp [h]
  · simp [h]

lemma specNextSeq_fresh (cc mc : List Char) (assets : List Asset)
    (hcons : ∀ a ∈ assets, ∀ n : Nat, a.tag = formatTag cc mc n →
      a.country_code = cc ∧ a.manufacturer_code = mc) :
    ∀ a ∈ assets, a.tag ≠ formatTag cc mc (specNextSeq cc mc assets) := by
  intro a ha htag
  have hmatch := hcons a ha _ htag
  have hmem : a ∈ assets.filter (matchesPair cc mc) := by
    rw [List.mem_filter]
    exact ⟨ha, by simp [matchesPair, hmatch.1, hmatch.2]⟩
  have hnum : specNextSeq cc mc assets ∈
      (assets.filter (matchesPair cc mc)).filterMap extractTagNumber := by
    rw [List.mem_filterMap]
    exact ⟨a, hmem, extractTagNumber_of_tag_eq htag⟩
  have hne : (assets.filter (matchesPair cc mc)).filterMap extractTagNumber ≠ [] := by
    intro hnil
    rw [hnil] at hnum
    simp at hnum
  have hle := mem_le_foldl_max _ 0 _ hnum
  have heq : specNextSeq cc mc assets =
      ((assets.filter (matchesPair cc mc)).filterMap
        extractTagNumber).foldl Nat.max 0 + 1 := by
    simp [specNextSeq, hne]
  omega

lemma importStep_tagsDistinct (now : List Char) (st : List Asset × Nat)
    (line : List Char) (h : tagsDistinct st.1) :
    tagsDistinct (importStep now st line).1 := by
  unfold importStep
  by_cases h1 : '-' ∈ line ∧ (pySplit '-' line).length = 3
  · rw [if_pos h1]
    by_cases h2 : ∃ a ∈ st.1, a.tag = line
    · rw [if_neg (not_not_intro h2)]
      exact h
    · rw [if_pos h2]
      unfold tagsDistinct at h ⊢
      rw [List.map_append, List.nodup_append]
      refine ⟨h, by simp, ?_⟩
      intro t ht ht2
      simp only [List.map_cons, List.map_nil, List.mem_singleton] at ht2
      rw [List.mem_map] at ht
      obtain ⟨a, ha, hat⟩ := ht
      exact h2 ⟨a, ha, by rw [hat, ht2]; rfl⟩
  · rw [if_neg h1]
    exact h

lemma importFold_tagsDistinct (now : List Char) :
    ∀ (lines : List (List Char)) (st : List Asset × Nat),
      tagsDistinct st.1 → tagsDistinct ((lines.foldl (importStep now) st)).1 := by
  intro lines
  induction lines with
  | nil => intro st h; exact h
  | cons l ls ih =>
    intro st h
    exact ih _ (importStep_tagsDistinct now st l h)

lemma matchesPair_genRecord (cc mc nm now : List Char) (j : Nat) :
    matchesPair cc mc (genRecord cc mc nm now j) = true := by
  simp [matchesPair, genRecord]

lemma generate_on_generated (cc mc nm now : List Char) (assets : List Asset)
    (h : assets.filter (matchesPair cc mc) = []) (k : Nat) :
    generate_asset_tag cc mc
      (assets ++ (List.range k).map (fun i => genRecord cc mc nm now (i + 1))) =
      formatTag cc mc (k + 1) := by
  have hfilter : (assets ++
        (List.range k).map (fun i => genRecord cc mc nm now (i + 1))).filter
          (matchesPair cc mc) =
      (List.range k).map (fun i => genRecord cc mc nm now (i + 1)) := by
    rw [List.filter_append, h, List.nil_append]
    rw [List.filter_eq_self]
    intro a ha
    rw [List.mem_map] at ha
    obtain ⟨i, _, rfl⟩ := ha
    exact matchesPair_genRecord cc mc nm now (i + 1)
  cases k with
  | zero =>
    simp only [List.range_zero, List.map_nil, List.append_nil] at hfilter ⊢
    simp [generate_asset_tag, hfilter]
  | succ j =>
    have hnum : ((List.range (j + 1)).map
          (fun i => genRecord cc mc nm now (i + 1))).filterMap extractTagNumber =
        (List.range (j + 1)).map (fun i => i + 1) := by
      rw [List.filterMap_map]
      have hfn : extractTagNumber ∘ (fun i => genRecord cc mc nm now (i + 1)) =
          fun i => some (i + 1) := by
        funext i
        exact @extractTagNumber_of_tag_eq (genRecord cc mc nm now (i + 1))
          cc mc (i + 1) rfl
      rw [hfn]
      exact List.filterMap_eq_map (fun i => i + 1) ▸ rfl
    have hmapne : (List.range (j + 1)).map
        (fun i => genRecord cc mc nm now (i + 1)) ≠ [] := by simp
    have hnumne : (List.range (j + 1)).map (fun i => i + 1) ≠ [] := by simp
    unfold generate_asset_tag
    rw [hfilter]
    simp only [hnum]
    rw [if_neg hmapne, if_neg hnumne, foldl_max_range_map]

lemma batchGenerate_eq (cc mc nm now : List Char) (assets : List Asset)
    (h : assets.filter (matchesPair cc mc) = []) :
    ∀ k, batchGenerate cc mc nm now assets k =
      assets ++ (List.range k).map (fun i => genRecord cc mc nm now (i + 1)) := by
  intro k
  induction k with
  | zero => simp [batchGenerate]
  | succ k ih =>
    simp only [batchGenerate]
    rw [ih, generate_on_generated cc mc nm now assets h k]
    simp [List.range_succ, genRecord]

lemma import_existing_tags_fst (saveOk : Bool) (assets : List Asset)
    (pasted now : List Char) :
    (import_existing_tags saveOk assets pasted now).1 =
      (importCore assets pasted now).1 := by
  simp only [import_existing_tags]
  split <;> rfl

lemma import_existing_tags_snd_false (assets : List Asset)
    (pasted now : List Char) :
    (import_existing_tags false assets pasted now).2 = false := by
  simp only [import_existing_tags]
  split <;> rfl

lemma importFold_shape (now : List Char) :
    ∀ (lines : List (List Char)) (st : List Asset × Nat),
      ∃ recs : List Asset,
        lines.foldl (importStep now) st = (st.1 ++ recs, st.2 + recs.length) := by
  intro lines
  induction lines with
  | nil => intro st; exact ⟨[], by simp⟩
  | cons l ls ih =>
    intro st
    rcases hstep : importStep now st l with ⟨l1, n1⟩
    by_cases h1 : '-' ∈ l ∧ (pySplit '-' l).length = 3
    · by_cases h2 : ∃ a ∈ st.1, a.tag = l
      · have hst : importStep now st l = st := by
          unfold importStep
          rw [if_pos h1, if_neg (not_not_intro h2)]
        obtain ⟨recs, hr⟩ := ih st
        refine ⟨recs, ?_⟩
        rw [List.foldl_cons, hst, hr]
      · have hst : importStep now st l =
            (st.1 ++ [importRecord now l], st.2 + 1) := by
          unfold importStep
          rw [if_pos h1, if_pos h2]
        obtain ⟨recs, hr⟩ := ih (st.1 ++ [importRecord now l], st.2 + 1)
        refine ⟨importRecord now l :: recs, ?_⟩
        rw [List.foldl_cons, hst, hr]
        have e1 : (st.1 ++ [importRecord now l]) ++ recs =
            st.1 ++ (importRecord now l :: recs) := by simp
        have e2 : st.2 + 1 + recs.length =
            st.2 + (importRecord now l :: recs).length := by
          simp only [List.length_cons]
          omega
        rw [e1, e2]
    · have hst : importStep now st l = st := by
        unfold importStep
        rw [if_neg h1]
      obtain ⟨recs, hr⟩ := ih st
      refine ⟨recs, ?_⟩
      rw [List.foldl_cons, hst, hr]

lemma importCore_shape (assets : List Asset) (pasted now : List Char) :
    ∃ recs : List Asset,
      importCore assets pasted now = (assets ++ recs, recs.length) := by
  obtain ⟨recs, h⟩ := importFold_shape now (tagLines pasted) (assets, 0)
  exact ⟨recs, by simpa [importCore] using h⟩

/-! The claims. -/

/-- C1: for every asset list and every (country_code, manufacturer_code)
pair, `generate_asset_tag` filters the list to the assets whose country and
manufacturer codes both match exactly, parses each matching asset's tag's
trailing dash-separated field as an integer ignoring parse failures (a tag
with no dash has no such field and contributes nothing), and returns a tag
whose sequence number is the maximum parsed number plus one, or 1 when there
is no matching asset or no parseable number; in particular, with no matching
asset the returned sequence number is 1. -/
theorem generate_asset_tag_is_max_plus_one (cc mc : List Char)
    (assets : List Asset) :
    generate_asset_tag cc mc assets =
      formatTag cc mc (specNextSeq cc mc assets) ∧
    (assets.filter (matchesPair cc mc) = [] → specNextSeq cc mc assets = 1) := by
  refine ⟨generate_eq_format cc mc assets, fun h => ?_⟩
  simp [specNextSeq, h]

/-- C2 counterexample: the asset list holding the single record
`mismatchedAsset` (tag EGY-ZE-0001, but code fields X and Y) has pairwise
distinct tags, yet appending the record produced by `generate_asset_tag` for
the pair (EGY, ZE) duplicates the tag EGY-ZE-0001: the max-plus-one
derivation only sees assets whose code fields match, so it cannot see a
clashing tag stored with other code fields. -/
theorem tag_uniqueness_counterexample :
    tagsDistinct [mismatchedAsset] ∧
    ¬ tagsDistinct ([mismatchedAsset] ++
      [{ tag := generate_asset_tag ccEGY mcZE [mismatchedAsset],
         country_code := ccEGY, manufacturer_code := mcZE,
         name := [], date_created := [] }]) := by decide

/-- C2 (amended): on an asset list with pairwise distinct tags, (a) the
importing loop keeps the tags pairwise distinct for every pasted text, and
(b) appending the record produced by `generate_asset_tag` for a pair keeps
the tags pairwise distinct PROVIDED every stored asset whose tag reads as a
generated tag of that pair also carries that pair in its code fields (the
counterexample shows the proviso cannot be dropped: the derivation performs
no membership check, so a clashing tag stored under other code fields
defeats it). -/
theorem tag_uniqueness_invariant (assets : List Asset) (cc mc nm now : List Char)
    (hdist : tagsDistinct assets)
    (hcons : ∀ a ∈ assets, ∀ n : Nat, a.tag = formatTag cc mc n →
      a.country_code = cc ∧ a.manufacturer_code = mc) :
    (∀ pasted, tagsDistinct (importCore assets pasted now).1) ∧
    tagsDistinct (assets ++
      [{ tag := generate_asset_tag cc mc assets, country_code := cc,
         manufacturer_code := mc, name := nm, date_created := now }]) := by
  constructor
  · intro pasted
    exact importFold_tagsDistinct now (tagLines pasted) (assets, 0) hdist
  · unfold tagsDistinct
    rw [List.map_append, List.nodup_append]
    refine ⟨hdist, by simp, ?_⟩
    intro t ht ht2
    simp only [List.map_cons, List.map_nil, List.mem_singleton] at ht2
    rw [List.mem_map] at ht
    obtain ⟨a, ha, hat⟩ := ht
    have hfresh := specNextSeq_fresh cc mc assets hcons a ha
    rw [generate_eq_format] at ht2
    exact hfresh (by rw [hat, ht2])

/-- Witness for the amended C2 at a concrete input: the empty asset list
with the pair (EGY, ZE). -/
theorem tag_uniqueness_invariant_witness :
    (∀ pasted, tagsDistinct (importCore [] pasted []).1) ∧
    tagsDistinct (([] : List Asset) ++
      [{ tag := generate_asset_tag ccEGY mcZE [], country_code := ccEGY,
         manufacturer_code := mcZE, name := [], date_created := [] }]) :=
  tag_uniqueness_invariant [] ccEGY mcZE [] [] (by decide) (by simp)

/-- C3: when the initial snapshot holds no asset matching the pair, feeding
each generated record back into the snapshot makes the Nth generated tag
carry sequence number N (stated both as the formatted tag and as the parsed
trailing field). -/
theorem nth_generated_seq_is_n (cc mc nm now : List Char) (assets : List Asset)
    (N : Nat) (hN : 1 ≤ N)
    (h : assets.filter (matchesPair cc mc) = []) :
    generate_asset_tag cc mc (batchGenerate cc mc nm now assets (N - 1)) =
      formatTag cc mc N ∧
    parsePyInt (lastSeg (generate_asset_tag cc mc
      (batchGenerate cc mc nm now assets (N - 1)))) = some N := by
  have h1 : generate_asset_tag cc mc (batchGenerate cc mc nm now assets (N - 1)) =
      formatTag cc mc ((N - 1) + 1) := by
    rw [batchGenerate_eq cc mc nm now assets h (N - 1)]
    exact generate_on_generated cc mc nm now assets h (N - 1)
  have hN1 : N - 1 + 1 = N := by omega
  rw [hN1] at h1
  exact ⟨h1, by rw [h1, lastSeg_formatTag, parsePyInt_pad4]⟩

/-- Witness for C3 at a concrete input: three generations for (EGY, ZE) from
an empty snapshot; the third tag carries sequence number 3. -/
theorem nth_generated_seq_is_n_witness :
    generate_asset_tag ccEGY mcZE (batchGenerate ccEGY mcZE [] [] [] (3 - 1)) =
      formatTag ccEGY mcZE 3 ∧
    parsePyInt (lastSeg (generate_asset_tag ccEGY mcZE
      (batchGenerate ccEGY mcZE [] [] [] (3 - 1)))) = some 3 :=
  nth_generated_seq_is_n ccEGY mcZE [] [] [] 3 (by omega) (by decide)

/-- C4: a well-formed tag (non-empty dash-free country and manufacturer
fields, third field the canonical zero-padded decimal form of its value)
parses by dash-splitting into its three components, and formatting the
parsed components reproduces the original tag string. -/
theorem parse_format_roundtrip (cc mc s : List Char) (k : Nat)
    (hcc1 : cc ≠ []) (hccd : '-' ∉ cc) (hmc1 : mc ≠ []) (hmcd : '-' ∉ mc)
    (hs : parsePyInt s = some k) (hcanon : pad4 k = s) :
    parseTag (cc ++ '-' :: (mc ++ '-' :: s)) = some (cc, mc, k) ∧
    formatTag cc mc k = cc ++ '-' :: (mc ++ '-' :: s) := by
  have hsd : '-' ∉ s := hcanon ▸ dash_not_mem_pad4 k
  have hsplit : pySplit '-' (cc ++ '-' :: (mc ++ '-' :: s)) = [cc, mc, s] := by
    rw [pySplit_append_sep _ hccd, pySplit_append_sep _ hmcd,
      pySplit_of_not_mem hsd]
  have hsne : s ≠ [] := by
    rw [← hcanon]
    exact pad4_ne_nil k
  constructor
  · unfold parseTag
    rw [hsplit]
    simp [hcc1, hmc1, hsne, hs]
  · rw [formatTag, hcanon]

/-- Witness for C4 at a concrete input: the tag EGY-ZE-0001. -/
theorem parse_format_roundtrip_witness :
    parseTag (ccEGY ++ '-' :: (mcZE ++ '-' :: ['0', '0', '0', '1'])) =
      some (ccEGY, mcZE, 1) ∧
    formatTag ccEGY mcZE 1 = ccEGY ++ '-' :: (mcZE ++ '-' :: ['0', '0', '0', '1']) :=
  parse_format_roundtrip ccEGY mcZE ['0', '0', '0', '1'] 1 (by decide)
    (by decide) (by decide) (by decide) (by decide) (by decide)

/-- C5 counterexample: the line A--B splits into exactly 3 fields with the
middle one empty, yet the importer accepts it against an empty asset list
(one record is appended and the imported count becomes 1): the code only
counts the fields, it never requires them to be non-empty. -/
theorem importer_empty_field_counterexample :
    (pySplit '-' badLine).length = 3 ∧ (pySplit '-' badLine).getD 1 [] = [] ∧
    importCore [] badLine [] = ([importRecord [] badLine], 1) := by decide

/-- C5 (amended): the importer accepts a trimmed non-blank line exactly when
splitting it on the dash yields exactly 3 fields (fields may be empty) and
no stored asset already carries the line as its tag; on acceptance the
line's record is appended and the count incremented, otherwise the state is
left unchanged. -/
theorem importer_line_acceptance (now : List Char) (st : List Asset × Nat)
    (line : List Char) :
    importStep now st line =
      if (pySplit '-' line).length = 3 ∧ ¬ ∃ a ∈ st.1, a.tag = line then
        (st.1 ++ [importRecord now line], st.2 + 1)
      else st := by
  unfold importStep
  by_cases hlen : (pySplit '-' line).length = 3
  · have hdash : '-' ∈ line := by
      by_contra hd
      rw [pySplit_of_not_mem hd] at hlen
      simp at hlen
    rw [if_pos ⟨hdash, hlen⟩]
    by_cases hdup : ∃ a ∈ st.1, a.tag = line
    · rw [if_neg (not_not_intro hdup), if_neg (fun hc => hc.2 hdup)]
    · rw [if_pos hdup, if_pos ⟨hlen, hdup⟩]
  · rw [if_neg (fun hc => hlen hc.2), if_neg (fun hc => hlen hc.1)]

/-- C6: a line whose exact text already equals the tag of some asset in the
current list is skipped by the import loop: the asset list and the imported
count are left unchanged. -/
theorem importer_skips_duplicate (now : List Char) (st : List Asset × Nat)
    (line : List Char) (h : ∃ a ∈ st.1, a.tag = line) :
    importStep now st line = st := by
  unfold importStep
  by_cases h1 : '-' ∈ line ∧ (pySplit '-' line).length = 3
  · rw [if_pos h1, if_neg (not_not_intro h)]
  · rw [if_neg h1]

/-- Witness for C6 at a concrete input: the list already holds EGY-ZE-0001
and that exact line arrives. -/
theorem importer_skips_duplicate_witness :
    importStep [] ([sampleAsset], 0) egyTag = ([sampleAsset], 0) :=
  importer_skips_duplicate [] ([sampleAsset], 0) egyTag (by decide)

/-- C7: adding a code already present in a reference list (exact,
case-sensitive comparison) fails with the duplicate-code error and returns
no updated list to mutate or persist; concretely, adding EGY to the empty
list succeeds, adding EGY again fails, and the list still holds exactly one
entry with code EGY. -/
theorem duplicate_ref_code_add_fails (entries : List RefEntry)
    (code nm : List Char) (h : ∃ e ∈ entries, e.code = code) :
    add_ref_entry entries code nm = none ∧
    add_ref_entry [] ccEGY egyptName = some [egyEntry] ∧
    add_ref_entry [egyEntry] ccEGY egyptName = none ∧
    ([egyEntry].filter (fun e => e.code == ccEGY)).length = 1 := by
  refine ⟨?_, by decide, by decide, by decide⟩
  unfold add_ref_entry
  rw [if_pos h]

/-- Witness for C7 at a concrete input: the list already holding EGY. -/
theorem duplicate_ref_code_add_fails_witness :
    add_ref_entry [egyEntry] ccEGY egyptName = none ∧
    add_ref_entry [] ccEGY egyptName = some [egyEntry] ∧
    add_ref_entry [egyEntry] ccEGY egyptName = none ∧
    ([egyEntry].filter (fun e => e.code == ccEGY)).length = 1 :=
  duplicate_ref_code_add_fails [egyEntry] ccEGY egyptName (by decide)

/-- C8: when the GitHub backend is configured, a composed save attempts both
the GitHub save and the local file save (the file save is attempted whatever
the GitHub save returned), and the composed result is success exactly when
both backend saves succeed. -/
theorem dual_save_requires_both (github_ok file_ok : Bool) :
    (save_assets true github_ok file_ok).github_attempted = true ∧
    (save_assets true github_ok file_ok).file_attempted = true ∧
    ((save_assets true github_ok file_ok).result = true ↔
      github_ok = true ∧ file_ok = true) := by
  cases github_ok <;> cases file_ok <;> simp [save_assets]

/-- C9: with a repository configured, the remote save takes the update path
carrying the revision token obtained by the prior read when the document
exists, and the create path when no document is found. -/
theorem github_save_path_selection (sha : List Char) :
    save_data_to_github true (some sha) = GithubSave.update sha ∧
    save_data_to_github true none = GithubSave.create := by
  constructor <;> rfl

/-- C10: the import loop appends its accepted records to the caller's asset
list before the save is attempted, so when at least one line was accepted
and the save fails, the call returns failure while the appended records
remain in the caller's list (the in-memory mutation is not rolled back). -/
theorem import_mutation_survives_save_failure (assets : List Asset)
    (pasted now : List Char) (h : 0 < (importCore assets pasted now).2) :
    (import_existing_tags false assets pasted now).2 = false ∧
    ∃ recs : List Asset, recs ≠ [] ∧
      (import_existing_tags false assets pasted now).1 = assets ++ recs := by
  obtain ⟨recs, hcore⟩ := importCore_shape assets pasted now
  have hrne : recs ≠ [] := by
    intro hnil
    rw [hcore, hnil] at h
    simp at h
  refine ⟨import_existing_tags_snd_false assets pasted now, recs, hrne, ?_⟩
  rw [import_existing_tags_fst, hcore]

/-- Witness for C10 at a concrete input: importing the single line
EGY-ZE-0001 into an empty list while the save fails. -/
theorem import_mutation_survives_save_failure_witness :
    (import_existing_tags false [] egyTag []).2 = false ∧
    ∃ recs : List Asset, recs ≠ [] ∧
      (import_existing_tags false [] egyTag []).1 = [] ++ recs :=
  import_mutation_survives_save_failure [] egyTag [] (by decide)
